import Mathlib

/-!
Verification of the transaction-announcement tracker of this repository,
as embodied by the differential-test reference implementation in
src/src/test/fuzz/txrequest.cpp (class Tester).  The Tester keeps a dense
MAX_TXIDS x MAX_PEERS table of naive announcements with states
NOTHING / CANDIDATE / REQUESTED / COMPLETED, a current time m_now and a
sequence counter m_current_sequence, and mirrors every public call of the
real tracker onto this table.  The spec declares this harness the
normative executable specification, so the table and its operations are
what we embed.

Modelling notes, justified line by line against the source:
* `m_announcements[MAX_TXIDS][MAX_PEERS]` becomes a function
  `Fin 16 → Fin 16 → Ann`.  C++ leaves the non-state fields of an
  announcement indeterminate until first assignment and never reads them
  while the state is NOTHING; we initialise them to zero values.
* Wiping an announcement in C++ assigns only `m_state = NOTHING`,
  leaving the other fields stale; the embedding does the same.
* `ComputePriority` lives in invrequest.h, which is not part of the
  sources; following the spec it is an arbitrary deterministic function
  of (txid, peer, preferred), so the whole development is parametrised
  by `prio : Fin 16 → Fin 16 → Bool → Nat`.  Announcements cache its
  value at creation time exactly as the source does.
* The `m_events` priority queue only serves `AdvanceToEvent` as a way of
  picking the next interesting value of `m_now`; it never influences the
  announcement table.  Time changes are therefore modelled by a single
  `advanceTime` operation with an arbitrary (possibly negative) offset,
  which covers every `m_now` the fuzz driver can produce.
-/

namespace TxRequest

/-- Number of distinct txids used by the harness (MAX_TXIDS in the source). -/
abbrev MAX_TXIDS : Nat := 16

/-- Number of distinct peers used by the harness (MAX_PEERS in the source). -/
abbrev MAX_PEERS : Nat := 16

/-- States of a txid/peer combination in the naive structure
(enum class State in the source). -/
inductive AnnState where
  | nothing
  | candidate
  | requested
  | completed
deriving DecidableEq

/-- One naive announcement (struct Announcement in the source):
`time` is reqtime for candidates and exptime for requested announcements,
`sequence` is the creation sequence number, `priority` the cached output
of the priority oracle. -/
structure Ann where
  time : Int
  sequence : Nat
  state : AnnState
  preferred : Bool
  priority : Nat
deriving DecidableEq

/-- Full state of the naive structure: the announcement table, the current
time `m_now` and the sequence counter `m_current_sequence`. -/
structure TS where
  ann : Fin MAX_TXIDS → Fin MAX_PEERS → Ann
  now : Int
  seq : Nat

/-- Replace one row of the announcement table. -/
def TS.setRow (s : TS) (t : Fin MAX_TXIDS) (row : Fin MAX_PEERS → Ann) : TS :=
  { s with ann := fun u => if u = t then row else s.ann u }

/-- Tester::Cleanup, acting on the row of one txid: if some announcement is
neither NOTHING nor COMPLETED the loop returns early; if all are NOTHING it
also returns; otherwise every announcement of the row is set to NOTHING. -/
def cleanupRow (row : Fin MAX_PEERS → Ann) : Fin MAX_PEERS → Ann :=
  if ∀ p, (row p).state = AnnState.nothing ∨ (row p).state = AnnState.completed then
    if ∀ p, (row p).state = AnnState.nothing then row
    else fun p => { row p with state := AnnState.nothing }
  else row

/-- Tester::Cleanup lifted to the full state. -/
def cleanup (s : TS) (t : Fin MAX_TXIDS) : TS :=
  s.setRow t (cleanupRow (s.ann t))

/-- The expiry loop at the top of Tester::GetRequestable for one txid: the
first REQUESTED announcement with `time ≤ now` (the loop breaks after one)
is marked COMPLETED and reported.  `List.find?` matches the break-on-first
semantics of the source loop. -/
def expireRow (row : Fin MAX_PEERS → Ann) (now : Int) :
    (Fin MAX_PEERS → Ann) × Option (Fin MAX_PEERS) :=
  match (List.finRange MAX_PEERS).find?
      (fun p => decide ((row p).state = AnnState.requested) && decide ((row p).time ≤ now)) with
  | some p => (fun q => if q = p then { row q with state := AnnState.completed } else row q, some p)
  | none => (row, none)

/-- One iteration of the loop in Tester::GetSelected.  In the source the
running best is the pair (ret, ret_priority); since ret_priority is always
the priority of ret, the accumulator here is just the optional peer.  The
condition `ret == -1 || ann.m_priority > ret_priority` becomes the match on
the accumulator. -/
def selStep (row : Fin MAX_PEERS → Ann) (now : Int)
    (acc : Option (Fin MAX_PEERS)) (p : Fin MAX_PEERS) : Option (Fin MAX_PEERS) :=
  match acc with
  | none =>
      if (row p).state = AnnState.candidate ∧ (row p).time ≤ now then some p else none
  | some r =>
      if (row p).state = AnnState.candidate ∧ (row p).time ≤ now ∧
          (row r).priority < (row p).priority
      then some p else some r

/-- Tester::GetSelected for one txid row.  The source loop returns -1 as
soon as it meets any REQUESTED announcement, whatever was accumulated
before, so scanning all peers and aborting on a REQUESTED is equivalent to
the up-front test used here; otherwise the loop is the fold of `selStep`
over peers in increasing order. -/
def getSelected (row : Fin MAX_PEERS → Ann) (now : Int) : Option (Fin MAX_PEERS) :=
  if ∃ q, (row q).state = AnnState.requested then none
  else (List.finRange MAX_PEERS).foldl (selStep row now) none

/-- Combined per-txid state effect of Tester::GetRequestable: expire the
overdue REQUESTED announcement of the row, then run Cleanup on the row. -/
def procRow (row : Fin MAX_PEERS → Ann) (now : Int) : Fin MAX_PEERS → Ann :=
  cleanupRow (expireRow row now).1

/-- Order used by std::sort on the (sequence, txid) result tuples of
Tester::GetRequestable: lexicographic, sequence first. -/
abbrev pairLe (a b : Nat × Fin MAX_TXIDS) : Prop :=
  a.1 < b.1 ∨ (a.1 = b.1 ∧ a.2 ≤ b.2)

instance : IsTotal (Nat × Fin MAX_TXIDS) pairLe := by
  constructor
  intro a b
  rcases Nat.lt_trichotomy a.1 b.1 with h | h | h
  · exact Or.inl (Or.inl h)
  · rcases le_total a.2 b.2 with h2 | h2
    · exact Or.inl (Or.inr ⟨h, h2⟩)
    · exact Or.inr (Or.inr ⟨h.symm, h2⟩)
  · exact Or.inr (Or.inl h)

instance : IsTrans (Nat × Fin MAX_TXIDS) pairLe := by
  constructor
  intro a b c hab hbc
  rcases hab with h | ⟨h, h2⟩
  · rcases hbc with h3 | ⟨h3, _⟩
    · exact Or.inl (h.trans h3)
    · exact Or.inl (h3 ▸ h)
  · rcases hbc with h3 | ⟨h3, h4⟩
    · exact Or.inl (h ▸ h3)
    · exact Or.inr ⟨h.trans h3, h2.trans h4⟩

/-- The std::sort at the end of Tester::GetRequestable.  The entries have
pairwise distinct txid components, on which `pairLe` is antisymmetric, so
any sorting algorithm yields the same list as std::sort. -/
def sortPairs (l : List (Nat × Fin MAX_TXIDS)) : List (Nat × Fin MAX_TXIDS) :=
  List.insertionSort pairLe l

/-- Tester::ReceivedInv on the naive structure: if the slot is NOTHING,
create a CANDIDATE carrying reqtime, the next sequence number, the
preferred flag and the cached priority; otherwise do nothing.  (The
`m_events` push is not modelled, see the header comment.) -/
def receivedInv (prio : Fin MAX_TXIDS → Fin MAX_PEERS → Bool → Nat)
    (s : TS) (peer : Fin MAX_PEERS) (txid : Fin MAX_TXIDS)
    (preferred : Bool) (reqtime : Int) : TS :=
  if (s.ann txid peer).state = AnnState.nothing then
    { s with
      ann := fun t p =>
        if t = txid then
          if p = peer then
            { time := reqtime, sequence := s.seq, state := AnnState.candidate,
              preferred := preferred, priority := prio txid peer preferred }
          else s.ann t p
        else s.ann t p,
      seq := s.seq + 1 }
  else s

/-- Tester::RequestedTx on the naive structure: if the slot is a CANDIDATE,
every REQUESTED announcement of the txid row becomes COMPLETED (the source
loop also visits the slot itself, but its state is CANDIDATE so it is
unaffected) and the slot becomes REQUESTED with time exptime; otherwise
nothing changes.  (The `m_events` push is not modelled.) -/
def requestedTx (s : TS) (peer : Fin MAX_PEERS) (txid : Fin MAX_TXIDS)
    (exptime : Int) : TS :=
  if (s.ann txid peer).state = AnnState.candidate then
    { s with
      ann := fun t p =>
        if t = txid then
          if p = peer then { s.ann t p with state := AnnState.requested, time := exptime }
          else if (s.ann t p).state = AnnState.requested then
            { s.ann t p with state := AnnState.completed }
          else s.ann t p
        else s.ann t p }
  else s

/-- Tester::ReceivedResponse on the naive structure: if the slot is not
NOTHING, set it to COMPLETED and run Cleanup on the txid row. -/
def receivedResponse (s : TS) (peer : Fin MAX_PEERS) (txid : Fin MAX_TXIDS) : TS :=
  if (s.ann txid peer).state ≠ AnnState.nothing then
    cleanup
      { s with
        ann := fun t p =>
          if t = txid then
            if p = peer then { s.ann t p with state := AnnState.completed }
            else s.ann t p
          else s.ann t p }
      txid
  else s

/-- Tester::ForgetTxId on the naive structure: wipe the whole txid row,
then run Cleanup on it (which is a no-op on an all-NOTHING row). -/
def forgetTxId (s : TS) (txid : Fin MAX_TXIDS) : TS :=
  cleanup
    { s with
      ann := fun t p =>
        if t = txid then { s.ann t p with state := AnnState.nothing } else s.ann t p }
    txid

/-- Tester::DisconnectedPeer on the naive structure.  The source iterates
over txids, wiping the slot of the disconnected peer and running Cleanup on
the row when the slot was occupied; each iteration reads and writes only
the row of its own txid, so the loop is expressed row by row. -/
def disconnectedPeer (s : TS) (peer : Fin MAX_PEERS) : TS :=
  { s with
    ann := fun t =>
      if (s.ann t peer).state ≠ AnnState.nothing then
        cleanupRow (fun p =>
          if p = peer then { s.ann t p with state := AnnState.nothing } else s.ann t p)
      else s.ann t }

/-- Tester::AdvanceTime: shift `m_now` by an arbitrary, possibly negative,
offset. -/
def advanceTime (s : TS) (offset : Int) : TS :=
  { s with now := s.now + offset }

/-- Tester::GetRequestable.  The source loop handles one txid per
iteration and each iteration reads and writes only the row of that txid
and `m_now`, so the loop is expressed row by row: for every txid first
expire (at most one REQUESTED with time ≤ now, break semantics), then run
Cleanup, then report the txid when the queried peer's slot is a CANDIDATE
and GetSelected picks that peer.  The harness sorts both the result (by
(sequence, txid)) and the expired list before a set-like comparison; the
expired list is kept in txid order here since only its membership matters. -/
def getRequestable (s : TS) (peer : Fin MAX_PEERS) :
    TS × List (Nat × Fin MAX_TXIDS) × List (Fin MAX_PEERS × Fin MAX_TXIDS) :=
  let result := (List.finRange MAX_TXIDS).filterMap (fun t =>
    let row := procRow (s.ann t) s.now
    if (row peer).state = AnnState.candidate ∧ getSelected row s.now = some peer
    then some ((row peer).sequence, t) else none)
  let expired := (List.finRange MAX_TXIDS).filterMap (fun t =>
    ((expireRow (s.ann t) s.now).2).map (fun p => (p, t)))
  ({ s with ann := fun t => procRow (s.ann t) s.now }, sortPairs result, expired)

/-- The public calls of the harness, with arbitrary parameters. -/
inductive Op where
  | advanceTime (offset : Int)
  | receivedInv (peer : Fin MAX_PEERS) (txid : Fin MAX_TXIDS) (preferred : Bool) (reqtime : Int)
  | requestedTx (peer : Fin MAX_PEERS) (txid : Fin MAX_TXIDS) (exptime : Int)
  | receivedResponse (peer : Fin MAX_PEERS) (txid : Fin MAX_TXIDS)
  | forgetTxId (txid : Fin MAX_TXIDS)
  | disconnectedPeer (peer : Fin MAX_PEERS)
  | getRequestable (peer : Fin MAX_PEERS)

/-- State effect of one public call. -/
def stepOp (prio : Fin MAX_TXIDS → Fin MAX_PEERS → Bool → Nat) (s : TS) : Op → TS
  | Op.advanceTime d => advanceTime s d
  | Op.receivedInv p t pref rt => receivedInv prio s p t pref rt
  | Op.requestedTx p t e => requestedTx s p t e
  | Op.receivedResponse p t => receivedResponse s p t
  | Op.forgetTxId t => forgetTxId s t
  | Op.disconnectedPeer p => disconnectedPeer s p
  | Op.getRequestable p => (getRequestable s p).1

/-- Run a sequence of public calls from a state. -/
def runOps (prio : Fin MAX_TXIDS → Fin MAX_PEERS → Bool → Nat)
    (s : TS) (ops : List Op) : TS :=
  ops.foldl (stepOp prio) s

/-- The freshly constructed Tester: every slot NOTHING (non-state fields
zero-initialised, see header comment), `m_now` = 244466666 and sequence
counter 0. -/
def init : TS :=
  { ann := fun _ _ =>
      { time := 0, sequence := 0, state := AnnState.nothing, preferred := false, priority := 0 },
    now := 244466666,
    seq := 0 }

/-- A concrete deterministic priority oracle (the priority of a peer is its
index), used to instantiate witnesses; the spec leaves the oracle as an
arbitrary keyed hash. -/
def prio0 : Fin MAX_TXIDS → Fin MAX_PEERS → Bool → Nat :=
  fun _ p _ => p.val

/-- A priority oracle in which all announcements tie, exhibiting the
tie-breaking behaviour of GetSelected; 64-bit hash values may collide, so
the spec does not exclude ties. -/
def prioTie : Fin MAX_TXIDS → Fin MAX_PEERS → Bool → Nat :=
  fun _ _ _ => 0

/-- Viability as tested inside Tester::GetSelected: a CANDIDATE whose time
has been reached. -/
abbrev selViab (row : Fin MAX_PEERS → Ann) (now : Int) (p : Fin MAX_PEERS) : Prop :=
  (row p).state = AnnState.candidate ∧ (row p).time ≤ now

/-- Declarative description of the peer returned by Tester::GetSelected:
no REQUESTED announcement exists in the row, the peer is a viable
candidate, and every viable candidate either has strictly smaller priority
or ties with the winner at an index not below it (the loop keeps the first
maximum it meets). -/
abbrev selectedRow (row : Fin MAX_PEERS → Ann) (now : Int) (p : Fin MAX_PEERS) : Prop :=
  (∀ q, (row q).state ≠ AnnState.requested) ∧ selViab row now p ∧
  ∀ q, selViab row now q →
    (row q).priority < (row p).priority ∨
    ((row q).priority = (row p).priority ∧ p ≤ q)

theorem selStep_none (row : Fin MAX_PEERS → Ann) (now : Int) (p : Fin MAX_PEERS) :
    selStep row now none p =
      if (row p).state = AnnState.candidate ∧ (row p).time ≤ now then some p else none := rfl

theorem selStep_some (row : Fin MAX_PEERS → Ann) (now : Int) (r p : Fin MAX_PEERS) :
    selStep row now (some r) p =
      if (row p).state = AnnState.candidate ∧ (row p).time ≤ now ∧
          (row r).priority < (row p).priority then some p else some r := rfl

/-- Behaviour of the GetSelected loop on a strictly increasing list of
peers when the accumulator already holds a viable peer `r` smaller than all
listed peers: the result is `p` iff either `p` is `r` and no listed viable
candidate strictly beats `r`, or `p` is the first listed viable candidate
attaining the maximal priority, that maximum exceeding the priority of `r`. -/
theorem selFold_some_spec (row : Fin MAX_PEERS → Ann) (now : Int) (p : Fin MAX_PEERS) :
    ∀ (l : List (Fin MAX_PEERS)) (r : Fin MAX_PEERS),
      l.Pairwise (· < ·) → selViab row now r → (∀ q ∈ l, r < q) →
      (l.foldl (selStep row now) (some r) = some p ↔
        (p = r ∧ ∀ q ∈ l, selViab row now q → (row q).priority ≤ (row r).priority) ∨
        (p ∈ l ∧ selViab row now p ∧ (row r).priority < (row p).priority ∧
          ∀ q ∈ l, selViab row now q →
            (row q).priority < (row p).priority ∨
            ((row q).priority = (row p).priority ∧ p ≤ q))) := by
  intro l
  induction l with
  | nil =>
    intro r _ _ _
    simp only [List.foldl_nil, Option.some.injEq, List.not_mem_nil, false_and, or_false,
      false_implies, implies_true, and_true]
    exact eq_comm
  | cons x xs ih =>
    intro r hpw hviab hlt
    rw [List.pairwise_cons] at hpw
    obtain ⟨hx_lt, hpw_xs⟩ := hpw
    have hrx : r < x := hlt x (List.mem_cons_self x xs)
    have hrxs : ∀ q ∈ xs, r < q := fun q hq => hlt q (List.mem_cons_of_mem _ hq)
    by_cases hvx : selViab row now x
    · by_cases hbeat : (row r).priority < (row x).priority
      · have hstep : selStep row now (some r) x = some x := by
          rw [selStep_some, if_pos ⟨hvx.1, hvx.2, hbeat⟩]
        rw [List.foldl_cons, hstep, ih x hpw_xs hvx hx_lt]
        constructor
        · rintro (⟨rfl, hkeep⟩ | ⟨hmem, hvp, hlt2, hcond⟩)
          · refine Or.inr ⟨List.mem_cons_self _ _, hvx, hbeat, ?_⟩
            intro q hq hvq
            rcases List.mem_cons.mp hq with rfl | hq2
            · exact Or.inr ⟨rfl, le_refl _⟩
            · rcases Nat.lt_or_ge (row q).priority (row p).priority with h2 | h2
              · exact Or.inl h2
              · exact Or.inr ⟨le_antisymm (hkeep q hq2 hvq) h2, le_of_lt (hx_lt q hq2)⟩
          · refine Or.inr ⟨List.mem_cons_of_mem _ hmem, hvp, hbeat.trans hlt2, ?_⟩
            intro q hq hvq
            rcases List.mem_cons.mp hq with rfl | hq2
            · exact Or.inl hlt2
            · exact hcond q hq2 hvq
        · rintro (⟨rfl, hkeep⟩ | ⟨hmem, hvp, hlt2, hcond⟩)
          · exact absurd (hkeep x (List.mem_cons_self _ _) hvx) (not_le.mpr hbeat)
          · rcases List.mem_cons.mp hmem with rfl | hq2
            · refine Or.inl ⟨rfl, ?_⟩
              intro q hq hvq
              rcases hcond q (List.mem_cons_of_mem _ hq) hvq with h2 | ⟨h2, _⟩
              · exact le_of_lt h2
              · exact le_of_eq h2
            · rcases hcond x (List.mem_cons_self _ _) hvx with h2 | ⟨_, hle⟩
              · exact Or.inr ⟨hq2, hvp, h2,
                  fun q hq hvq => hcond q (List.mem_cons_of_mem _ hq) hvq⟩
              · exact absurd hle (not_le.mpr (hx_lt p hq2))
      · have hstep : selStep row now (some r) x = some r := by
          rw [selStep_some, if_neg (fun hc => hbeat hc.2.2)]
        rw [List.foldl_cons, hstep, ih r hpw_xs hviab hrxs]
        constructor
        · rintro (⟨rfl, hkeep⟩ | ⟨hmem, hvp, hlt2, hcond⟩)
          · refine Or.inl ⟨rfl, ?_⟩
            intro q hq hvq
            rcases List.mem_cons.mp hq with rfl | hq2
            · exact not_lt.mp hbeat
            · exact hkeep q hq2 hvq
          · refine Or.inr ⟨List.mem_cons_of_mem _ hmem, hvp, hlt2, ?_⟩
            intro q hq hvq
            rcases List.mem_cons.mp hq with rfl | hq2
            · exact Or.inl (lt_of_le_of_lt (not_lt.mp hbeat) hlt2)
            · exact hcond q hq2 hvq
        · rintro (⟨rfl, hkeep⟩ | ⟨hmem, hvp, hlt2, hcond⟩)
          · exact Or.inl ⟨rfl, fun q hq hvq => hkeep q (List.mem_cons_of_mem _ hq) hvq⟩
          · rcases List.mem_cons.mp hmem with rfl | hq2
            · exact absurd hlt2 hbeat
            · exact Or.inr ⟨hq2, hvp, hlt2,
                fun q hq hvq => hcond q (List.mem_cons_of_mem _ hq) hvq⟩
    · have hstep : selStep row now (some r) x = some r := by
        rw [selStep_some, if_neg (fun hc => hvx ⟨hc.1, hc.2.1⟩)]
      rw [List.foldl_cons, hstep, ih r hpw_xs hviab hrxs]
      constructor
      · rintro (⟨rfl, hkeep⟩ | ⟨hmem, hvp, hlt2, hcond⟩)
        · refine Or.inl ⟨rfl, ?_⟩
          intro q hq hvq
          rcases List.mem_cons.mp hq with rfl | hq2
          · exact absurd hvq hvx
          · exact hkeep q hq2 hvq
        · refine Or.inr ⟨List.mem_cons_of_mem _ hmem, hvp, hlt2, ?_⟩
          intro q hq hvq
          rcases List.mem_cons.mp hq with rfl | hq2
          · exact absurd hvq hvx
          · exact hcond q hq2 hvq
      · rintro (⟨rfl, hkeep⟩ | ⟨hmem, hvp, hlt2, hcond⟩)
        · exact Or.inl ⟨rfl, fun q hq hvq => hkeep q (List.mem_cons_of_mem _ hq) hvq⟩
        · rcases List.mem_cons.mp hmem with rfl | hq2
          · exact absurd hvp hvx
          · exact Or.inr ⟨hq2, hvp, hlt2,
              fun q hq hvq => hcond q (List.mem_cons_of_mem _ hq) hvq⟩

/-- Behaviour of the GetSelected loop started with an empty accumulator on
a strictly increasing list of peers: the result is `p` iff `p` is the
first listed viable candidate attaining the maximal priority. -/
theorem selFold_none_spec (row : Fin MAX_PEERS → Ann) (now : Int) (p : Fin MAX_PEERS) :
    ∀ (l : List (Fin MAX_PEERS)), l.Pairwise (· < ·) →
      (l.foldl (selStep row now) none = some p ↔
        p ∈ l ∧ selViab row now p ∧
          ∀ q ∈ l, selViab row now q →
            (row q).priority < (row p).priority ∨
            ((row q).priority = (row p).priority ∧ p ≤ q)) := by
  intro l
  induction l with
  | nil => intro _; simp
  | cons x xs ih =>
    intro hpw
    rw [List.pairwise_cons] at hpw
    obtain ⟨hx_lt, hpw_xs⟩ := hpw
    by_cases hvx : selViab row now x
    · have hstep : selStep row now none x = some x := by
        rw [selStep_none, if_pos ⟨hvx.1, hvx.2⟩]
      rw [List.foldl_cons, hstep, selFold_some_spec row now p xs x hpw_xs hvx hx_lt]
      constructor
      · rintro (⟨rfl, hkeep⟩ | ⟨hmem, hvp, hlt2, hcond⟩)
        · refine ⟨List.mem_cons_self _ _, hvx, ?_⟩
          intro q hq hvq
          rcases List.mem_cons.mp hq with rfl | hq2
          · exact Or.inr ⟨rfl, le_refl _⟩
          · rcases Nat.lt_or_ge (row q).priority (row p).priority with h2 | h2
            · exact Or.inl h2
            · exact Or.inr ⟨le_antisymm (hkeep q hq2 hvq) h2, le_of_lt (hx_lt q hq2)⟩
        · refine ⟨List.mem_cons_of_mem _ hmem, hvp, ?_⟩
          intro q hq hvq
          rcases List.mem_cons.mp hq with rfl | hq2
          · exact Or.inl hlt2
          · exact hcond q hq2 hvq
      · rintro ⟨hmem, hvp, hcond⟩
        rcases List.mem_cons.mp hmem with rfl | hq2
        · refine Or.inl ⟨rfl, ?_⟩
          intro q hq hvq
          rcases hcond q (List.mem_cons_of_mem _ hq) hvq with h2 | ⟨h2, _⟩
          · exact le_of_lt h2
          · exact le_of_eq h2
        · rcases hcond x (List.mem_cons_self _ _) hvx with h2 | ⟨_, hle⟩
          · exact Or.inr ⟨hq2, hvp, h2,
              fun q hq hvq => hcond q (List.mem_cons_of_mem _ hq) hvq⟩
          · exact absurd hle (not_le.mpr (hx_lt p hq2))
    · have hstep : selStep row now none x = none := by
        rw [selStep_none, if_neg (fun hc => hvx ⟨hc.1, hc.2⟩)]
      rw [List.foldl_cons, hstep, ih hpw_xs]
      constructor
      · rintro ⟨hmem, hvp, hcond⟩
        refine ⟨List.mem_cons_of_mem _ hmem, hvp, ?_⟩
        intro q hq hvq
        rcases List.mem_cons.mp hq with rfl | hq2
        · exact absurd hvq hvx
        · exact hcond q hq2 hvq
      · rintro ⟨hmem, hvp, hcond⟩
        rcases List.mem_cons.mp hmem with rfl | hq2
        · exact absurd hvp hvx
        · exact ⟨hq2, hvp, fun q hq hvq => hcond q (List.mem_cons_of_mem _ hq) hvq⟩

/-- Declarative characterisation of Tester::GetSelected. -/
theorem getSelected_eq_some_iff (row : Fin MAX_PEERS → Ann) (now : Int) (p : Fin MAX_PEERS) :
    getSelected row now = some p ↔ selectedRow row now p := by
  unfold getSelected
  by_cases hreq : ∃ q, (row q).state = AnnState.requested
  · rw [if_pos hreq]
    constructor
    · intro h; exact Option.noConfusion h
    · rintro ⟨hnone, -, -⟩
      obtain ⟨q, hq⟩ := hreq
      exact absurd hq (hnone q)
  · rw [if_neg hreq]
    rw [selFold_none_spec row now p (List.finRange MAX_PEERS) (List.pairwise_lt_finRange _)]
    push_neg at hreq
    constructor
    · rintro ⟨-, hvp, hcond⟩
      exact ⟨hreq, hvp, fun q hvq => hcond q (List.mem_finRange q) hvq⟩
    · rintro ⟨-, hvp, hcond⟩
      exact ⟨List.mem_finRange p, hvp, fun q _ hvq => hcond q hvq⟩

theorem cleanupRow_state_sub (row : Fin MAX_PEERS → Ann) (p : Fin MAX_PEERS)
    (h : (cleanupRow row p).state = AnnState.requested) :
    (row p).state = AnnState.requested := by
  unfold cleanupRow at h
  by_cases h1 : ∀ q, (row q).state = AnnState.nothing ∨ (row q).state = AnnState.completed
  · by_cases h2 : ∀ q, (row q).state = AnnState.nothing
    · rwa [if_pos h1, if_pos h2] at h
    · rw [if_pos h1, if_neg h2] at h
      simp at h
  · rwa [if_neg h1] at h

theorem cleanupRow_id_of_active (row : Fin MAX_PEERS → Ann) (q : Fin MAX_PEERS)
    (h1 : (row q).state ≠ AnnState.nothing) (h2 : (row q).state ≠ AnnState.completed) :
    cleanupRow row = row := by
  unfold cleanupRow
  rw [if_neg]
  intro hall
  rcases hall q with h | h
  · exact h1 h
  · exact h2 h

theorem cleanupRow_completed_or_nothing (row : Fin MAX_PEERS → Ann) (p : Fin MAX_PEERS)
    (h : (row p).state = AnnState.completed) :
    (cleanupRow row p).state = AnnState.completed ∨
    (cleanupRow row p).state = AnnState.nothing := by
  unfold cleanupRow
  by_cases h1 : ∀ q, (row q).state = AnnState.nothing ∨ (row q).state = AnnState.completed
  · by_cases h2 : ∀ q, (row q).state = AnnState.nothing
    · rw [if_pos h1, if_pos h2]; exact Or.inl h
    · rw [if_pos h1, if_neg h2]; exact Or.inr rfl
  · rw [if_neg h1]; exact Or.inl h

/-- Cleanup establishes the purge invariant on its row: afterwards, a row
made only of NOTHING and COMPLETED announcements is all NOTHING. -/
theorem cleanupRow_clean (row : Fin MAX_PEERS → Ann)
    (h : ∀ p, (cleanupRow row p).state = AnnState.nothing ∨
              (cleanupRow row p).state = AnnState.completed) :
    ∀ p, (cleanupRow row p).state = AnnState.nothing := by
  intro p
  by_cases h1 : ∀ q, (row q).state = AnnState.nothing ∨ (row q).state = AnnState.completed
  · by_cases h2 : ∀ q, (row q).state = AnnState.nothing
    · unfold cleanupRow; rw [if_pos h1, if_pos h2]; exact h2 p
    · unfold cleanupRow; rw [if_pos h1, if_neg h2]
  · unfold cleanupRow at h
    rw [if_neg h1] at h
    exact absurd h h1

theorem expireRow_state_cases (row : Fin MAX_PEERS → Ann) (now : Int) (p : Fin MAX_PEERS) :
    (expireRow row now).1 p = row p ∨
    ((expireRow row now).1 p).state = AnnState.completed := by
  unfold expireRow
  cases hfind : (List.finRange MAX_PEERS).find?
      (fun q => decide ((row q).state = AnnState.requested) && decide ((row q).time ≤ now)) with
  | none => exact Or.inl rfl
  | some r =>
    by_cases hpr : p = r
    · refine Or.inr ?_
      subst hpr
      simp
    · refine Or.inl ?_
      simp only [if_neg hpr]

theorem expireRow_state_sub (row : Fin MAX_PEERS → Ann) (now : Int) (p : Fin MAX_PEERS)
    (h : ((expireRow row now).1 p).state = AnnState.requested) :
    (row p).state = AnnState.requested := by
  rcases expireRow_state_cases row now p with h2 | h2
  · rwa [h2] at h
  · rw [h2] at h
    exact absurd h (by decide)

theorem expireRow_ne_requested (row : Fin MAX_PEERS → Ann) (now : Int) (p : Fin MAX_PEERS)
    (hp : (row p).state ≠ AnnState.requested) :
    (expireRow row now).1 p = row p := by
  unfold expireRow
  cases hfind : (List.finRange MAX_PEERS).find?
      (fun q => decide ((row q).state = AnnState.requested) && decide ((row q).time ≤ now)) with
  | none => rfl
  | some r =>
    have hpred := List.find?_some hfind
    simp only [Bool.and_eq_true, decide_eq_true_eq] at hpred
    simp only
    rw [if_neg]
    intro hpr
    exact hp (hpr ▸ hpred.1)

theorem expireRow_snd_some (row : Fin MAX_PEERS → Ann) (now : Int) (p : Fin MAX_PEERS)
    (h : (expireRow row now).2 = some p) :
    (row p).state = AnnState.requested ∧ (row p).time ≤ now := by
  unfold expireRow at h
  cases hfind : (List.finRange MAX_PEERS).find?
      (fun q => decide ((row q).state = AnnState.requested) && decide ((row q).time ≤ now)) with
  | none => rw [hfind] at h; exact Option.noConfusion h
  | some r =>
    rw [hfind] at h
    simp only [Option.some.injEq] at h
    subst h
    have hpred := List.find?_some hfind
    simp only [Bool.and_eq_true, decide_eq_true_eq] at hpred
    exact hpred

theorem expireRow_snd_eq (row : Fin MAX_PEERS → Ann) (now : Int) (p : Fin MAX_PEERS)
    (huniq : ∀ q q2, (row q).state = AnnState.requested →
      (row q2).state = AnnState.requested → q = q2)
    (hp : (row p).state = AnnState.requested) (ht : (row p).time ≤ now) :
    (expireRow row now).2 = some p := by
  unfold expireRow
  cases hfind : (List.finRange MAX_PEERS).find?
      (fun q => decide ((row q).state = AnnState.requested) && decide ((row q).time ≤ now)) with
  | none =>
    exfalso
    have hnone := List.find?_eq_none.mp hfind p (List.mem_finRange p)
    simp only [Bool.and_eq_true, decide_eq_true_eq, not_and] at hnone
    exact hnone hp ht
  | some r =>
    have hpred := List.find?_some hfind
    simp only [Bool.and_eq_true, decide_eq_true_eq] at hpred
    simp only [Option.some.injEq]
    exact huniq r p hpred.1 hp

theorem expireRow_fst_completed (row : Fin MAX_PEERS → Ann) (now : Int) (p : Fin MAX_PEERS)
    (h : (expireRow row now).2 = some p) :
    ((expireRow row now).1 p).state = AnnState.completed := by
  unfold expireRow at h ⊢
  cases hfind : (List.finRange MAX_PEERS).find?
      (fun q => decide ((row q).state = AnnState.requested) && decide ((row q).time ≤ now)) with
  | none => rw [hfind] at h; exact Option.noConfusion h
  | some r =>
    rw [hfind] at h
    simp only [Option.some.injEq] at h
    subst h
    simp

/-- Projection of Tester::GetRequestable to its selected list. -/
theorem getRequestable_sel (s : TS) (peer : Fin MAX_PEERS) :
    (getRequestable s peer).2.1 = sortPairs ((List.finRange MAX_TXIDS).filterMap (fun t =>
      if ((procRow (s.ann t) s.now) peer).state = AnnState.candidate ∧
          getSelected (procRow (s.ann t) s.now) s.now = some peer
      then some (((procRow (s.ann t) s.now) peer).sequence, t) else none)) := rfl

/-- Projection of Tester::GetRequestable to its expired list. -/
theorem getRequestable_expired (s : TS) (peer : Fin MAX_PEERS) :
    (getRequestable s peer).2.2 = (List.finRange MAX_TXIDS).filterMap (fun t =>
      ((expireRow (s.ann t) s.now).2).map (fun p => (p, t))) := rfl

/-- Projection of Tester::GetRequestable to its state effect. -/
theorem getRequestable_state (s : TS) (peer : Fin MAX_PEERS) :
    (getRequestable s peer).1 = { s with ann := fun t => procRow (s.ann t) s.now } := rfl

/-- Membership in the selected output of GetRequestable is exactly the
condition tested by the source loop, on the row after expiry and cleanup. -/
theorem mem_selected_iff (s : TS) (peer : Fin MAX_PEERS) (t : Fin MAX_TXIDS) :
    t ∈ ((getRequestable s peer).2.1).map Prod.snd ↔
      ((procRow (s.ann t) s.now) peer).state = AnnState.candidate ∧
      getSelected (procRow (s.ann t) s.now) s.now = some peer := by
  rw [getRequestable_sel]
  have hperm := List.perm_insertionSort pairLe
    ((List.finRange MAX_TXIDS).filterMap (fun u =>
      if ((procRow (s.ann u) s.now) peer).state = AnnState.candidate ∧
          getSelected (procRow (s.ann u) s.now) s.now = some peer
      then some (((procRow (s.ann u) s.now) peer).sequence, u) else none))
  constructor
  · intro h
    rw [List.mem_map] at h
    obtain ⟨a, ha, hat⟩ := h
    have ha2 := hperm.mem_iff.mp ha
    rw [List.mem_filterMap] at ha2
    obtain ⟨u, -, hu⟩ := ha2
    by_cases hc : ((procRow (s.ann u) s.now) peer).state = AnnState.candidate ∧
        getSelected (procRow (s.ann u) s.now) s.now = some peer
    · rw [if_pos hc] at hu
      simp only [Option.some.injEq] at hu
      have : u = t := by rw [← hu] at hat; exact hat
      exact this ▸ hc
    · rw [if_neg hc] at hu
      exact Option.noConfusion hu
  · intro hc
    rw [List.mem_map]
    refine ⟨(((procRow (s.ann t) s.now) peer).sequence, t), ?_, rfl⟩
    exact hperm.mem_iff.mpr
      (List.mem_filterMap.mpr ⟨t, List.mem_finRange t, by rw [if_pos hc]⟩)

/-- Membership in the expired output of GetRequestable is exactly what the
per-row expiry step reports. -/
theorem mem_expired_iff_raw (s : TS) (peer : Fin MAX_PEERS)
    (p : Fin MAX_PEERS) (t : Fin MAX_TXIDS) :
    (p, t) ∈ (getRequestable s peer).2.2 ↔ (expireRow (s.ann t) s.now).2 = some p := by
  rw [getRequestable_expired, List.mem_filterMap]
  constructor
  · rintro ⟨u, -, hu⟩
    cases he : (expireRow (s.ann u) s.now).2 with
    | none => rw [he] at hu; exact Option.noConfusion hu
    | some q =>
      rw [he] at hu
      simp only [Option.map_some', Option.some.injEq, Prod.mk.injEq] at hu
      obtain ⟨hq, hut⟩ := hu
      subst hut
      rwa [hq] at he
  · intro h
    exact ⟨t, List.mem_finRange t, by rw [h]; rfl⟩

/-- At most one REQUESTED announcement per row. -/
abbrev RowUniq (row : Fin MAX_PEERS → Ann) : Prop :=
  ∀ p q, (row p).state = AnnState.requested → (row q).state = AnnState.requested → p = q

/-- Invariant 1 of the spec: for each item at most one announcement is
REQUESTED. -/
abbrev UniqueRequested (s : TS) : Prop :=
  ∀ t, RowUniq (s.ann t)

/-- Purge invariant of a row: it never consists of NOTHING and COMPLETED
announcements only, unless it is all NOTHING. -/
abbrev RowClean (row : Fin MAX_PEERS → Ann) : Prop :=
  (∀ p, (row p).state = AnnState.nothing ∨ (row p).state = AnnState.completed) →
  ∀ p, (row p).state = AnnState.nothing

/-- Purge invariant of the spec: no item has only COMPLETED announcements. -/
abbrev NoAllCompleted (s : TS) : Prop :=
  ∀ t, RowClean (s.ann t)

theorem rowUniq_of_sub {row1 row2 : Fin MAX_PEERS → Ann}
    (hsub : ∀ p, (row2 p).state = AnnState.requested → (row1 p).state = AnnState.requested)
    (h : RowUniq row1) : RowUniq row2 :=
  fun p q hp hq => h p q (hsub p hp) (hsub q hq)

theorem rowClean_of_active (row : Fin MAX_PEERS → Ann) (q : Fin MAX_PEERS)
    (h : (row q).state = AnnState.candidate ∨ (row q).state = AnnState.requested) :
    RowClean row := by
  intro hall
  exfalso
  rcases h with h | h <;> rcases hall q with h2 | h2 <;> rw [h] at h2 <;> simp at h2

theorem rowClean_congr (row1 : Fin MAX_PEERS → Ann) {row2 : Fin MAX_PEERS → Ann}
    (h : ∀ p, row1 p = row2 p) (hc : RowClean row1) : RowClean row2 := by
  have heq : row2 = row1 := funext fun p => (h p).symm
  rwa [heq]

theorem receivedInv_noop (prio : Fin MAX_TXIDS → Fin MAX_PEERS → Bool → Nat)
    (s : TS) (peer : Fin MAX_PEERS) (txid : Fin MAX_TXIDS) (pref : Bool) (rt : Int)
    (hg : (s.ann txid peer).state ≠ AnnState.nothing) :
    receivedInv prio s peer txid pref rt = s := by
  unfold receivedInv
  rw [if_neg hg]

theorem receivedInv_create (prio : Fin MAX_TXIDS → Fin MAX_PEERS → Bool → Nat)
    (s : TS) (peer : Fin MAX_PEERS) (txid : Fin MAX_TXIDS) (pref : Bool) (rt : Int)
    (hg : (s.ann txid peer).state = AnnState.nothing) :
    receivedInv prio s peer txid pref rt =
      { s with
        ann := fun t p =>
          if t = txid then
            if p = peer then
              { time := rt, sequence := s.seq, state := AnnState.candidate,
                preferred := pref, priority := prio txid peer pref }
            else s.ann t p
          else s.ann t p,
        seq := s.seq + 1 } := by
  unfold receivedInv
  rw [if_pos hg]

theorem receivedInv_state_sub (prio : Fin MAX_TXIDS → Fin MAX_PEERS → Bool → Nat)
    (s : TS) (peer : Fin MAX_PEERS) (txid : Fin MAX_TXIDS) (pref : Bool) (rt : Int)
    (t : Fin MAX_TXIDS) (p : Fin MAX_PEERS)
    (hx : ((receivedInv prio s peer txid pref rt).ann t p).state = AnnState.requested) :
    (s.ann t p).state = AnnState.requested := by
  by_cases hg : (s.ann txid peer).state = AnnState.nothing
  · rw [receivedInv_create prio s peer txid pref rt hg] at hx
    have hx2 : ((if t = txid then
        if p = peer then
          ({ time := rt, sequence := s.seq, state := AnnState.candidate,
             preferred := pref, priority := prio txid peer pref } : Ann)
        else s.ann t p
        else s.ann t p)).state = AnnState.requested := hx
    by_cases ht : t = txid
    · rw [if_pos ht] at hx2
      by_cases hp : p = peer
      · rw [if_pos hp] at hx2; simp at hx2
      · rwa [if_neg hp] at hx2
    · rwa [if_neg ht] at hx2
  · rwa [receivedInv_noop prio s peer txid pref rt hg] at hx

theorem requestedTx_noop (s : TS) (peer : Fin MAX_PEERS) (txid : Fin MAX_TXIDS) (e : Int)
    (hg : (s.ann txid peer).state ≠ AnnState.candidate) :
    requestedTx s peer txid e = s := by
  unfold requestedTx
  rw [if_neg hg]

theorem requestedTx_ann (s : TS) (peer : Fin MAX_PEERS) (txid : Fin MAX_TXIDS) (e : Int)
    (hg : (s.ann txid peer).state = AnnState.candidate) :
    (requestedTx s peer txid e).ann = fun t p =>
      if t = txid then
        if p = peer then { s.ann t p with state := AnnState.requested, time := e }
        else if (s.ann t p).state = AnnState.requested then
          { s.ann t p with state := AnnState.completed }
        else s.ann t p
      else s.ann t p := by
  unfold requestedTx
  rw [if_pos hg]

theorem requestedTx_row_requested (s : TS) (peer : Fin MAX_PEERS) (txid : Fin MAX_TXIDS)
    (e : Int) (hg : (s.ann txid peer).state = AnnState.candidate) (p : Fin MAX_PEERS)
    (hp : ((requestedTx s peer txid e).ann txid p).state = AnnState.requested) :
    p = peer := by
  rw [requestedTx_ann s peer txid e hg] at hp
  have hp2 : ((if txid = txid then
      if p = peer then ({ s.ann txid p with state := AnnState.requested, time := e } : Ann)
      else if (s.ann txid p).state = AnnState.requested then
        ({ s.ann txid p with state := AnnState.completed } : Ann)
      else s.ann txid p
      else s.ann txid p)).state = AnnState.requested := hp
  rw [if_pos rfl] at hp2
  by_cases hpp : p = peer
  · exact hpp
  · rw [if_neg hpp] at hp2
    by_cases hr : (s.ann txid p).state = AnnState.requested
    · rw [if_pos hr] at hp2; simp at hp2
    · rw [if_neg hr] at hp2; exact absurd hp2 hr

theorem requestedTx_ann_ne (s : TS) (peer : Fin MAX_PEERS) (txid : Fin MAX_TXIDS) (e : Int)
    (t : Fin MAX_TXIDS) (p : Fin MAX_PEERS) (ht : t ≠ txid) :
    (requestedTx s peer txid e).ann t p = s.ann t p := by
  by_cases hg : (s.ann txid peer).state = AnnState.candidate
  · rw [requestedTx_ann s peer txid e hg]
    exact if_neg ht
  · rw [requestedTx_noop s peer txid e hg]

theorem requestedTx_slot (s : TS) (peer : Fin MAX_PEERS) (txid : Fin MAX_TXIDS) (e : Int)
    (hg : (s.ann txid peer).state = AnnState.candidate) :
    (requestedTx s peer txid e).ann txid peer =
      { s.ann txid peer with state := AnnState.requested, time := e } := by
  rw [requestedTx_ann s peer txid e hg]
  show (if txid = txid then
      if peer = peer then ({ s.ann txid peer with state := AnnState.requested, time := e } : Ann)
      else if (s.ann txid peer).state = AnnState.requested then
        ({ s.ann txid peer with state := AnnState.completed } : Ann)
      else s.ann txid peer
      else s.ann txid peer) = _
  rw [if_pos rfl, if_pos rfl]

theorem receivedResponse_noop (s : TS) (peer : Fin MAX_PEERS) (txid : Fin MAX_TXIDS)
    (hg : (s.ann txid peer).state = AnnState.nothing) :
    receivedResponse s peer txid = s := by
  unfold receivedResponse
  rw [if_neg (not_not.mpr hg)]

theorem receivedResponse_row (s : TS) (peer : Fin MAX_PEERS) (txid : Fin MAX_TXIDS)
    (hg : (s.ann txid peer).state ≠ AnnState.nothing) :
    (receivedResponse s peer txid).ann txid =
      cleanupRow (fun q =>
        if q = peer then { s.ann txid q with state := AnnState.completed }
        else s.ann txid q) := by
  unfold receivedResponse cleanup TS.setRow
  rw [if_pos hg]
  simp

theorem receivedResponse_ann_ne (s : TS) (peer : Fin MAX_PEERS) (txid : Fin MAX_TXIDS)
    (t : Fin MAX_TXIDS) (p : Fin MAX_PEERS) (ht : t ≠ txid) :
    (receivedResponse s peer txid).ann t p = s.ann t p := by
  by_cases hg : (s.ann txid peer).state ≠ AnnState.nothing
  · unfold receivedResponse cleanup TS.setRow
    rw [if_pos hg]
    simp [ht]
  · push_neg at hg
    rw [receivedResponse_noop s peer txid hg]

theorem receivedResponse_state_sub (s : TS) (peer : Fin MAX_PEERS) (txid : Fin MAX_TXIDS)
    (t : Fin MAX_TXIDS) (p : Fin MAX_PEERS)
    (hx : ((receivedResponse s peer txid).ann t p).state = AnnState.requested) :
    (s.ann t p).state = AnnState.requested := by
  by_cases ht : t = txid
  · subst ht
    by_cases hg : (s.ann t peer).state ≠ AnnState.nothing
    · rw [receivedResponse_row s peer t hg] at hx
      have hx2 := cleanupRow_state_sub _ p hx
      have hx3 : ((if p = peer then ({ s.ann t p with state := AnnState.completed } : Ann)
          else s.ann t p)).state = AnnState.requested := hx2
      by_cases hp : p = peer
      · rw [if_pos hp] at hx3; simp at hx3
      · rwa [if_neg hp] at hx3
    · push_neg at hg
      rwa [receivedResponse_noop s peer t hg] at hx
  · rwa [receivedResponse_ann_ne s peer txid t p ht] at hx

theorem forgetTxId_row (s : TS) (txid : Fin MAX_TXIDS) :
    (forgetTxId s txid).ann txid =
      cleanupRow (fun q => { s.ann txid q with state := AnnState.nothing }) := by
  unfold forgetTxId cleanup TS.setRow
  simp

theorem forgetTxId_ann_ne (s : TS) (txid : Fin MAX_TXIDS)
    (t : Fin MAX_TXIDS) (p : Fin MAX_PEERS) (ht : t ≠ txid) :
    (forgetTxId s txid).ann t p = s.ann t p := by
  unfold forgetTxId cleanup TS.setRow
  simp [ht]

theorem forgetTxId_state_sub (s : TS) (txid : Fin MAX_TXIDS)
    (t : Fin MAX_TXIDS) (p : Fin MAX_PEERS)
    (hx : ((forgetTxId s txid).ann t p).state = AnnState.requested) :
    (s.ann t p).state = AnnState.requested := by
  by_cases ht : t = txid
  · subst ht
    rw [forgetTxId_row s t] at hx
    have hx2 := cleanupRow_state_sub _ p hx
    simp at hx2
  · rwa [forgetTxId_ann_ne s txid t p ht] at hx

theorem disconnectedPeer_row (s : TS) (peer : Fin MAX_PEERS) (t : Fin MAX_TXIDS)
    (hg : (s.ann t peer).state ≠ AnnState.nothing) :
    (disconnectedPeer s peer).ann t =
      cleanupRow (fun p =>
        if p = peer then { s.ann t p with state := AnnState.nothing } else s.ann t p) := by
  unfold disconnectedPeer
  simp [hg]

theorem disconnectedPeer_row_ne (s : TS) (peer : Fin MAX_PEERS) (t : Fin MAX_TXIDS)
    (hg : (s.ann t peer).state = AnnState.nothing) :
    (disconnectedPeer s peer).ann t = s.ann t := by
  unfold disconnectedPeer
  simp [hg]

theorem disconnectedPeer_state_sub (s : TS) (peer : Fin MAX_PEERS)
    (t : Fin MAX_TXIDS) (p : Fin MAX_PEERS)
    (hx : ((disconnectedPeer s peer).ann t p).state = AnnState.requested) :
    (s.ann t p).state = AnnState.requested := by
  by_cases hg : (s.ann t peer).state = AnnState.nothing
  · rwa [disconnectedPeer_row_ne s peer t hg] at hx
  · rw [disconnectedPeer_row s peer t hg] at hx
    have hx2 := cleanupRow_state_sub _ p hx
    have hx3 : ((if p = peer then ({ s.ann t p with state := AnnState.nothing } : Ann)
        else s.ann t p)).state = AnnState.requested := hx2
    by_cases hp : p = peer
    · rw [if_pos hp] at hx3; simp at hx3
    · rwa [if_neg hp] at hx3

theorem procRow_state_sub (row : Fin MAX_PEERS → Ann) (now : Int) (p : Fin MAX_PEERS)
    (hx : ((procRow row now) p).state = AnnState.requested) :
    (row p).state = AnnState.requested :=
  expireRow_state_sub row now p (cleanupRow_state_sub _ p hx)

/-- Every public call preserves the single-in-flight invariant. -/
theorem stepOp_uniq (prio : Fin MAX_TXIDS → Fin MAX_PEERS → Bool → Nat)
    (s : TS) (op : Op) (h : UniqueRequested s) : UniqueRequested (stepOp prio s op) := by
  cases op with
  | advanceTime d => exact h
  | receivedInv peer txid pref rt =>
    intro t
    exact rowUniq_of_sub (fun p => receivedInv_state_sub prio s peer txid pref rt t p) (h t)
  | requestedTx peer txid e =>
    show UniqueRequested (requestedTx s peer txid e)
    by_cases hg : (s.ann txid peer).state = AnnState.candidate
    · intro t
      by_cases ht : t = txid
      · subst ht
        intro p q hp hq
        rw [requestedTx_row_requested s peer t e hg p hp,
          requestedTx_row_requested s peer t e hg q hq]
      · exact rowUniq_of_sub
          (fun p hp => by rwa [requestedTx_ann_ne s peer txid e t p ht] at hp) (h t)
    · rw [requestedTx_noop s peer txid e hg]
      exact h
  | receivedResponse peer txid =>
    intro t
    exact rowUniq_of_sub (fun p => receivedResponse_state_sub s peer txid t p) (h t)
  | forgetTxId txid =>
    intro t
    exact rowUniq_of_sub (fun p => forgetTxId_state_sub s txid t p) (h t)
  | disconnectedPeer peer =>
    intro t
    exact rowUniq_of_sub (fun p => disconnectedPeer_state_sub s peer t p) (h t)
  | getRequestable peer =>
    intro t
    exact rowUniq_of_sub (fun p => procRow_state_sub (s.ann t) s.now p) (h t)

/-- Every public call preserves the purge invariant. -/
theorem stepOp_clean (prio : Fin MAX_TXIDS → Fin MAX_PEERS → Bool → Nat)
    (s : TS) (op : Op) (h : NoAllCompleted s) : NoAllCompleted (stepOp prio s op) := by
  cases op with
  | advanceTime d => exact h
  | receivedInv peer txid pref rt =>
    by_cases hg : (s.ann txid peer).state = AnnState.nothing
    · intro t
      by_cases ht : t = txid
      · subst ht
        refine rowClean_of_active _ peer (Or.inl ?_)
        rw [show stepOp prio s (Op.receivedInv peer t pref rt) =
          receivedInv prio s peer t pref rt from rfl, receivedInv_create prio s peer t pref rt hg]
        show ((if t = t then
            if peer = peer then
              ({ time := rt, sequence := s.seq, state := AnnState.candidate,
                 preferred := pref, priority := prio t peer pref } : Ann)
            else s.ann t peer
            else s.ann t peer)).state = AnnState.candidate
        rw [if_pos rfl, if_pos rfl]
      · refine rowClean_congr (s.ann t) (fun p => ?_) (h t)
        rw [show stepOp prio s (Op.receivedInv peer txid pref rt) =
          receivedInv prio s peer txid pref rt from rfl, receivedInv_create prio s peer txid pref rt hg]
        exact (if_neg ht).symm
    · show NoAllCompleted (receivedInv prio s peer txid pref rt)
      rw [receivedInv_noop prio s peer txid pref rt hg]
      exact h
  | requestedTx peer txid e =>
    by_cases hg : (s.ann txid peer).state = AnnState.candidate
    · intro t
      by_cases ht : t = txid
      · subst ht
        refine rowClean_of_active _ peer (Or.inr ?_)
        show ((requestedTx s peer t e).ann t peer).state = AnnState.requested
        rw [requestedTx_slot s peer t e hg]
      · exact rowClean_congr (s.ann t)
          (fun p => (requestedTx_ann_ne s peer txid e t p ht).symm) (h t)
    · show NoAllCompleted (requestedTx s peer txid e)
      rw [requestedTx_noop s peer txid e hg]
      exact h
  | receivedResponse peer txid =>
    intro t
    by_cases ht : t = txid
    · subst ht
      by_cases hg : (s.ann t peer).state ≠ AnnState.nothing
      · show RowClean ((receivedResponse s peer t).ann t)
        rw [receivedResponse_row s peer t hg]
        exact cleanupRow_clean _
      · push_neg at hg
        show RowClean ((receivedResponse s peer t).ann t)
        rw [receivedResponse_noop s peer t hg]
        exact h t
    · exact rowClean_congr (s.ann t)
        (fun p => (receivedResponse_ann_ne s peer txid t p ht).symm) (h t)
  | forgetTxId txid =>
    intro t
    by_cases ht : t = txid
    · subst ht
      show RowClean ((forgetTxId s t).ann t)
      rw [forgetTxId_row s t]
      exact cleanupRow_clean _
    · exact rowClean_congr (s.ann t)
        (fun p => (forgetTxId_ann_ne s txid t p ht).symm) (h t)
  | disconnectedPeer peer =>
    intro t
    by_cases hg : (s.ann t peer).state = AnnState.nothing
    · exact rowClean_congr (s.ann t)
        (fun p => congrFun (disconnectedPeer_row_ne s peer t hg).symm p) (h t)
    · show RowClean ((disconnectedPeer s peer).ann t)
      rw [disconnectedPeer_row s peer t hg]
      exact cleanupRow_clean _
  | getRequestable peer =>
    intro t
    show RowClean (procRow (s.ann t) s.now)
    exact cleanupRow_clean _

theorem runOps_uniq (prio : Fin MAX_TXIDS → Fin MAX_PEERS → Bool → Nat)
    (ops : List Op) : ∀ s : TS, UniqueRequested s → UniqueRequested (runOps prio s ops) := by
  induction ops with
  | nil => intro s h; exact h
  | cons op ops ih => intro s h; exact ih _ (stepOp_uniq prio s op h)

theorem runOps_clean (prio : Fin MAX_TXIDS → Fin MAX_PEERS → Bool → Nat)
    (ops : List Op) : ∀ s : TS, NoAllCompleted s → NoAllCompleted (runOps prio s ops) := by
  induction ops with
  | nil => intro s h; exact h
  | cons op ops ih => intro s h; exact ih _ (stepOp_clean prio s op h)

theorem init_uniq : UniqueRequested init := by
  intro t p q hp _
  simp [init] at hp

theorem init_clean : NoAllCompleted init := by
  intro t _ p
  rfl

/-- Expected value of the Count accessor, as asserted by Tester::Check:
the number of non-NOTHING announcements of a peer. -/
def TS.count (s : TS) (peer : Fin MAX_PEERS) : Nat :=
  (Finset.univ.filter fun t : Fin MAX_TXIDS => (s.ann t peer).state ≠ AnnState.nothing).card

/-- Expected value of the CountInFlight accessor, as asserted by
Tester::Check: the number of REQUESTED announcements of a peer. -/
def TS.countInFlight (s : TS) (peer : Fin MAX_PEERS) : Nat :=
  (Finset.univ.filter fun t : Fin MAX_TXIDS => (s.ann t peer).state = AnnState.requested).card

/-- Expected value of the CountCandidates accessor, as asserted by
Tester::Check: the number of CANDIDATE announcements of a peer. -/
def TS.countCandidates (s : TS) (peer : Fin MAX_PEERS) : Nat :=
  (Finset.univ.filter fun t : Fin MAX_TXIDS => (s.ann t peer).state = AnnState.candidate).card

/-- Expected value of the Size accessor, as asserted by Tester::Check: the
total number of non-NOTHING announcements. -/
def TS.size (s : TS) : Nat :=
  (Finset.univ.filter fun tp : Fin MAX_TXIDS × Fin MAX_PEERS =>
    (s.ann tp.1 tp.2).state ≠ AnnState.nothing).card

/-! Claims. -/

/-- C1, counterexample: with peers 0 and 1 both holding ready candidates
for item 0, received_response(0, item 0) completes only the announcement of
peer 0; the candidate of peer 1 survives (Cleanup returns early because a
non-completed announcement exists) and a later get_requestable(1) still
returns item 0 — contradicting the claim that every other candidate for the
item is destroyed and no longer selectable. -/
theorem c1_counterexample :
    ((runOps prio0 init [Op.receivedInv 0 0 true 0, Op.receivedInv 1 0 true 0,
        Op.receivedResponse 0 0]).ann 0 1).state = AnnState.candidate ∧
    (0 : Fin MAX_TXIDS) ∈ ((getRequestable (runOps prio0 init [Op.receivedInv 0 0 true 0,
        Op.receivedInv 1 0 true 0, Op.receivedResponse 0 0]) 1).2.1).map Prod.snd :=
  ⟨by decide, by decide⟩

/-- C1, amended: after received_response(peer, item) for an existing pair,
rows of other items are untouched; the announcement becomes Completed, and
if the other announcements of the item are all NOTHING or COMPLETED the
whole row is erased; otherwise every other announcement of the item —
candidates included — is left unchanged (and remains selectable). -/
theorem c1_amended (s : TS) (peer : Fin MAX_PEERS) (txid : Fin MAX_TXIDS)
    (h : (s.ann txid peer).state ≠ AnnState.nothing) :
    (∀ t, t ≠ txid → ∀ p, (receivedResponse s peer txid).ann t p = s.ann t p) ∧
    ((∀ p, p ≠ peer → (s.ann txid p).state = AnnState.nothing ∨
        (s.ann txid p).state = AnnState.completed) →
      ∀ p, ((receivedResponse s peer txid).ann txid p).state = AnnState.nothing) ∧
    ((¬ ∀ p, p ≠ peer → (s.ann txid p).state = AnnState.nothing ∨
        (s.ann txid p).state = AnnState.completed) →
      ((receivedResponse s peer txid).ann txid peer).state = AnnState.completed ∧
      ∀ p, p ≠ peer → (receivedResponse s peer txid).ann txid p = s.ann txid p) := by
  refine ⟨fun t ht p => receivedResponse_ann_ne s peer txid t p ht, ?_, ?_⟩
  · intro hP p
    rw [receivedResponse_row s peer txid h]
    have hall : ∀ q, ((if q = peer then ({ s.ann txid q with state := AnnState.completed } : Ann)
        else s.ann txid q)).state = AnnState.nothing ∨
        ((if q = peer then ({ s.ann txid q with state := AnnState.completed } : Ann)
        else s.ann txid q)).state = AnnState.completed := by
      intro q
      by_cases hq : q = peer
      · rw [if_pos hq]; exact Or.inr rfl
      · rw [if_neg hq]; exact hP q hq
    have hB : ¬ ∀ q, ((if q = peer then ({ s.ann txid q with state := AnnState.completed } : Ann)
        else s.ann txid q)).state = AnnState.nothing := by
      intro hx
      have hx2 := hx peer
      rw [if_pos rfl] at hx2
      simp at hx2
    unfold cleanupRow
    rw [if_pos hall, if_neg hB]
  · intro hP
    rw [receivedResponse_row s peer txid h]
    have hnall : ¬ ∀ q, ((if q = peer then ({ s.ann txid q with state := AnnState.completed } : Ann)
        else s.ann txid q)).state = AnnState.nothing ∨
        ((if q = peer then ({ s.ann txid q with state := AnnState.completed } : Ann)
        else s.ann txid q)).state = AnnState.completed := by
      intro hx
      apply hP
      intro p hp
      have hx2 := hx p
      rwa [if_neg hp] at hx2
    have hid : cleanupRow (fun q =>
        if q = peer then ({ s.ann txid q with state := AnnState.completed } : Ann)
        else s.ann txid q) = fun q =>
        if q = peer then ({ s.ann txid q with state := AnnState.completed } : Ann)
        else s.ann txid q := by
      unfold cleanupRow
      rw [if_neg hnall]
    rw [hid]
    constructor
    · show ((if peer = peer then ({ s.ann txid peer with state := AnnState.completed } : Ann)
        else s.ann txid peer)).state = AnnState.completed
      rw [if_pos rfl]
    · intro p hp
      show (if p = peer then ({ s.ann txid p with state := AnnState.completed } : Ann)
        else s.ann txid p) = s.ann txid p
      rw [if_neg hp]

/-- Witness for c1_amended at a concrete reachable state with two
announcements for item 0. -/
theorem c1_amended_witness :
    ((runOps prio0 init [Op.receivedInv 0 0 true 0, Op.receivedInv 1 0 true 0]).ann 0 0).state
        ≠ AnnState.nothing ∧
    (¬ ∀ p, p ≠ (0 : Fin MAX_PEERS) →
        ((runOps prio0 init [Op.receivedInv 0 0 true 0, Op.receivedInv 1 0 true 0]).ann 0 p).state
            = AnnState.nothing ∨
        ((runOps prio0 init [Op.receivedInv 0 0 true 0, Op.receivedInv 1 0 true 0]).ann 0 p).state
            = AnnState.completed) ∧
    ((receivedResponse (runOps prio0 init [Op.receivedInv 0 0 true 0,
        Op.receivedInv 1 0 true 0]) 0 0).ann 0 0).state = AnnState.completed :=
  ⟨by decide, by decide,
    ((c1_amended (runOps prio0 init [Op.receivedInv 0 0 true 0, Op.receivedInv 1 0 true 0]) 0 0
      (by decide)).2.2 (by decide)).1⟩

/-- C2: in every state reachable from the fresh tracker by public calls,
at most one announcement per item is in state REQUESTED. -/
theorem c2_single_inflight (prio : Fin MAX_TXIDS → Fin MAX_PEERS → Bool → Nat)
    (ops : List Op) (t : Fin MAX_TXIDS) (p q : Fin MAX_PEERS)
    (hp : ((runOps prio init ops).ann t p).state = AnnState.requested)
    (hq : ((runOps prio init ops).ann t q).state = AnnState.requested) : p = q :=
  runOps_uniq prio ops init init_uniq t p q hp hq

/-- Witness for c2_single_inflight on a run with an actual request. -/
theorem c2_single_inflight_witness :
    ((runOps prio0 init [Op.receivedInv 0 0 true 0, Op.requestedTx 0 0 999999999]).ann 0 0).state
        = AnnState.requested ∧ (0 : Fin MAX_PEERS) = 0 :=
  ⟨by decide,
    c2_single_inflight prio0 [Op.receivedInv 0 0 true 0, Op.requestedTx 0 0 999999999]
      0 0 0 (by decide) (by decide)⟩

/-- C3, counterexample: with a priority oracle that assigns equal
priorities (64-bit hashes may collide; the spec fixes no oracle), peers 0
and 1 both hold ready candidates for item 0, no announcement is REQUESTED,
and the priority of the candidate of peer 1 is maximal among ready
candidates — yet get_requestable(1) returns the empty list, because
GetSelected breaks the tie in favour of the smaller peer index.  The
claimed characterisation would require item 0 in the output. -/
theorem c3_counterexample :
    (∀ p, ((runOps prioTie init [Op.receivedInv 0 0 true 0, Op.receivedInv 1 0 true 0]).ann 0
        p).state ≠ AnnState.requested) ∧
    ((runOps prioTie init [Op.receivedInv 0 0 true 0, Op.receivedInv 1 0 true 0]).ann 0 1).state
        = AnnState.candidate ∧
    ((runOps prioTie init [Op.receivedInv 0 0 true 0, Op.receivedInv 1 0 true 0]).ann 0 1).time
        ≤ (runOps prioTie init [Op.receivedInv 0 0 true 0, Op.receivedInv 1 0 true 0]).now ∧
    (∀ p, ((runOps prioTie init [Op.receivedInv 0 0 true 0, Op.receivedInv 1 0 true 0]).ann 0
          p).state = AnnState.candidate →
      ((runOps prioTie init [Op.receivedInv 0 0 true 0, Op.receivedInv 1 0 true 0]).ann 0
          p).time ≤ (runOps prioTie init [Op.receivedInv 0 0 true 0,
            Op.receivedInv 1 0 true 0]).now →
      ((runOps prioTie init [Op.receivedInv 0 0 true 0, Op.receivedInv 1 0 true 0]).ann 0
          p).priority ≤ ((runOps prioTie init [Op.receivedInv 0 0 true 0,
            Op.receivedInv 1 0 true 0]).ann 0 1).priority) ∧
    (getRequestable (runOps prioTie init [Op.receivedInv 0 0 true 0,
        Op.receivedInv 1 0 true 0]) 1).2.1 = [] :=
  ⟨by decide, by decide, by decide, by decide, by decide⟩

/-- C3, amended: get_requestable(peer, now) returns exactly those items
for which, on the row as it stands after the expiry and cleanup phase, no
announcement is REQUESTED, the queried peer holds a candidate with time ≤
now, and that candidate's priority is maximal among such candidates with
ties broken toward the lower peer identifier; the returned list is ordered
by ascending sequence number. -/
theorem c3_amended (s : TS) (peer : Fin MAX_PEERS) :
    (∀ txid, txid ∈ ((getRequestable s peer).2.1).map Prod.snd ↔
      selectedRow (procRow (s.ann txid) s.now) s.now peer) ∧
    ((getRequestable s peer).2.1).Pairwise (fun a b => a.1 ≤ b.1) := by
  constructor
  · intro txid
    rw [mem_selected_iff]
    constructor
    · rintro ⟨-, hsel⟩
      exact (getSelected_eq_some_iff _ _ _).mp hsel
    · intro hsel
      exact ⟨hsel.2.1.1, (getSelected_eq_some_iff _ _ _).mpr hsel⟩
  · rw [getRequestable_sel]
    refine List.Pairwise.imp ?_ (List.sorted_insertionSort pairLe _)
    intro a b hab
    rcases hab with h2 | ⟨h2, -⟩
    · exact le_of_lt h2
    · exact le_of_eq h2

/-- C4, counterexample: item 0 has an expired request by peer 0 and ready
candidates of peers 1 and 2, the candidate of peer 2 having the higher
priority.  Peer 1 thus held a ready candidate while the request of peer 0
expired, yet get_requestable(1) returns the empty selected list (the item
falls back to peer 2, not to peer 1), even though (0, item 0) is reported
expired — contradicting the claimed "in particular" consequence. -/
theorem c4_counterexample :
    ((runOps prio0 init [Op.receivedInv 1 0 true 0, Op.receivedInv 2 0 true 0,
        Op.receivedInv 0 0 true 0, Op.requestedTx 0 0 244466666]).ann 0 1).state
        = AnnState.candidate ∧
    ((runOps prio0 init [Op.receivedInv 1 0 true 0, Op.receivedInv 2 0 true 0,
        Op.receivedInv 0 0 true 0, Op.requestedTx 0 0 244466666]).ann 0 1).time
        ≤ (runOps prio0 init [Op.receivedInv 1 0 true 0, Op.receivedInv 2 0 true 0,
        Op.receivedInv 0 0 true 0, Op.requestedTx 0 0 244466666]).now ∧
    ((runOps prio0 init [Op.receivedInv 1 0 true 0, Op.receivedInv 2 0 true 0,
        Op.receivedInv 0 0 true 0, Op.requestedTx 0 0 244466666]).ann 0 0).state
        = AnnState.requested ∧
    ((runOps prio0 init [Op.receivedInv 1 0 true 0, Op.receivedInv 2 0 true 0,
        Op.receivedInv 0 0 true 0, Op.requestedTx 0 0 244466666]).ann 0 0).time
        ≤ (runOps prio0 init [Op.receivedInv 1 0 true 0, Op.receivedInv 2 0 true 0,
        Op.receivedInv 0 0 true 0, Op.requestedTx 0 0 244466666]).now ∧
    (getRequestable (runOps prio0 init [Op.receivedInv 1 0 true 0, Op.receivedInv 2 0 true 0,
        Op.receivedInv 0 0 true 0, Op.requestedTx 0 0 244466666]) 1).2.1 = [] ∧
    ((0 : Fin MAX_PEERS), (0 : Fin MAX_TXIDS)) ∈
      (getRequestable (runOps prio0 init [Op.receivedInv 1 0 true 0, Op.receivedInv 2 0 true 0,
        Op.receivedInv 0 0 true 0, Op.requestedTx 0 0 244466666]) 1).2.2 :=
  ⟨by decide, by decide, by decide, by decide, by decide, by decide⟩

/-- C4, amended: in a state satisfying the single-in-flight invariant,
get_requestable(peer, now) reports expired exactly the pairs whose
announcement is REQUESTED with time ≤ now; each such announcement ends up
COMPLETED, or erased by the subsequent cleanup; and when the queried peer
holds the candidate selected on the post-expiry row (in particular the only
remaining ready candidate), the item is returned and the expired pair
reported. -/
theorem c4_amended (s : TS) (peer : Fin MAX_PEERS) (huniq : UniqueRequested s) :
    (∀ p t, ((p, t) ∈ (getRequestable s peer).2.2 ↔
      ((s.ann t p).state = AnnState.requested ∧ (s.ann t p).time ≤ s.now))) ∧
    (∀ p t, (s.ann t p).state = AnnState.requested → (s.ann t p).time ≤ s.now →
      (((getRequestable s peer).1.ann t p).state = AnnState.completed ∨
       ((getRequestable s peer).1.ann t p).state = AnnState.nothing)) ∧
    (∀ p1 t, (s.ann t p1).state = AnnState.requested → (s.ann t p1).time ≤ s.now →
      selectedRow (procRow (s.ann t) s.now) s.now peer →
      (t ∈ ((getRequestable s peer).2.1).map Prod.snd ∧
       (p1, t) ∈ (getRequestable s peer).2.2)) := by
  refine ⟨?_, ?_, ?_⟩
  · intro p t
    rw [mem_expired_iff_raw]
    constructor
    · intro h2
      exact expireRow_snd_some (s.ann t) s.now p h2
    · intro h2
      exact expireRow_snd_eq (s.ann t) s.now p (huniq t) h2.1 h2.2
  · intro p t hreq htime
    have hsome : (expireRow (s.ann t) s.now).2 = some p :=
      expireRow_snd_eq (s.ann t) s.now p (huniq t) hreq htime
    have hcomp : ((expireRow (s.ann t) s.now).1 p).state = AnnState.completed :=
      expireRow_fst_completed (s.ann t) s.now p hsome
    exact cleanupRow_completed_or_nothing _ p hcomp
  · intro p1 t hreq htime hsel
    refine ⟨?_, ?_⟩
    · rw [mem_selected_iff]
      exact ⟨hsel.2.1.1, (getSelected_eq_some_iff _ _ _).mpr hsel⟩
    · rw [mem_expired_iff_raw]
      exact expireRow_snd_eq (s.ann t) s.now p1 (huniq t) hreq htime

/-- Witness for c4_amended: a reachable state with an expired request by
peer 0 and a sole remaining ready candidate held by peer 1. -/
theorem c4_amended_witness :
    UniqueRequested (runOps prio0 init [Op.receivedInv 0 0 true 0, Op.receivedInv 1 0 true 0,
      Op.requestedTx 0 0 244466666]) ∧
    (((0 : Fin MAX_PEERS), (0 : Fin MAX_TXIDS)) ∈
        (getRequestable (runOps prio0 init [Op.receivedInv 0 0 true 0, Op.receivedInv 1 0 true 0,
          Op.requestedTx 0 0 244466666]) 1).2.2 ↔
      (((runOps prio0 init [Op.receivedInv 0 0 true 0, Op.receivedInv 1 0 true 0,
          Op.requestedTx 0 0 244466666]).ann 0 0).state = AnnState.requested ∧
       ((runOps prio0 init [Op.receivedInv 0 0 true 0, Op.receivedInv 1 0 true 0,
          Op.requestedTx 0 0 244466666]).ann 0 0).time
          ≤ (runOps prio0 init [Op.receivedInv 0 0 true 0, Op.receivedInv 1 0 true 0,
          Op.requestedTx 0 0 244466666]).now)) :=
  ⟨by decide,
    (c4_amended (runOps prio0 init [Op.receivedInv 0 0 true 0, Op.receivedInv 1 0 true 0,
      Op.requestedTx 0 0 244466666]) 1 (by decide)).1 0 0⟩

/-- C5: requested_tx(peer, item, exptime) on an existing candidate turns it
into REQUESTED with time = exptime; any other REQUESTED announcement of the
item becomes COMPLETED keeping its other fields; every other announcement
of the item, and all other items, and the clock and sequence counter, are
unchanged; on a missing or non-candidate pair the call is a no-op. -/
theorem c5_requested_tx_contract (s : TS) (peer : Fin MAX_PEERS) (txid : Fin MAX_TXIDS)
    (e : Int) :
    ((s.ann txid peer).state = AnnState.candidate →
      (requestedTx s peer txid e).ann txid peer =
          { s.ann txid peer with state := AnnState.requested, time := e } ∧
      (∀ p, p ≠ peer → (s.ann txid p).state = AnnState.requested →
        (requestedTx s peer txid e).ann txid p =
          { s.ann txid p with state := AnnState.completed }) ∧
      (∀ p, p ≠ peer → (s.ann txid p).state ≠ AnnState.requested →
        (requestedTx s peer txid e).ann txid p = s.ann txid p) ∧
      (∀ t, t ≠ txid → ∀ p, (requestedTx s peer txid e).ann t p = s.ann t p) ∧
      (requestedTx s peer txid e).now = s.now ∧
      (requestedTx s peer txid e).seq = s.seq) ∧
    ((s.ann txid peer).state ≠ AnnState.candidate → requestedTx s peer txid e = s) := by
  constructor
  · intro hg
    refine ⟨requestedTx_slot s peer txid e hg, ?_, ?_,
      fun t ht p => requestedTx_ann_ne s peer txid e t p ht, ?_, ?_⟩
    · intro p hp hr
      rw [requestedTx_ann s peer txid e hg]
      show (if txid = txid then
          if p = peer then ({ s.ann txid p with state := AnnState.requested, time := e } : Ann)
          else if (s.ann txid p).state = AnnState.requested then
            ({ s.ann txid p with state := AnnState.completed } : Ann)
          else s.ann txid p
          else s.ann txid p) = { s.ann txid p with state := AnnState.completed }
      rw [if_pos rfl, if_neg hp, if_pos hr]
    · intro p hp hr
      rw [requestedTx_ann s peer txid e hg]
      show (if txid = txid then
          if p = peer then ({ s.ann txid p with state := AnnState.requested, time := e } : Ann)
          else if (s.ann txid p).state = AnnState.requested then
            ({ s.ann txid p with state := AnnState.completed } : Ann)
          else s.ann txid p
          else s.ann txid p) = s.ann txid p
      rw [if_pos rfl, if_neg hp, if_neg hr]
    · unfold requestedTx
      rw [if_pos hg]
    · unfold requestedTx
      rw [if_pos hg]
  · exact requestedTx_noop s peer txid e

/-- Witness for c5_requested_tx_contract on a reachable state with a
candidate announcement. -/
theorem c5_requested_tx_contract_witness :
    ((runOps prio0 init [Op.receivedInv 0 0 true 0]).ann 0 0).state = AnnState.candidate ∧
    (requestedTx (runOps prio0 init [Op.receivedInv 0 0 true 0]) 0 0 7).ann 0 0 =
      { (runOps prio0 init [Op.receivedInv 0 0 true 0]).ann 0 0 with
        state := AnnState.requested, time := 7 } :=
  ⟨by decide,
    ((c5_requested_tx_contract (runOps prio0 init [Op.receivedInv 0 0 true 0]) 0 0 7).1
      (by decide)).1⟩

/-- C6: in every reachable state, no item whose announcements all are
NOTHING or COMPLETED keeps any announcement — as soon as every existing
announcement of an item is COMPLETED they are all erased; and on an item
with no announcement for the pair, received_inv creates a fresh CANDIDATE
with the next sequence number. -/
theorem c6_purge_invariant :
    (∀ (prio : Fin MAX_TXIDS → Fin MAX_PEERS → Bool → Nat) (ops : List Op) (t : Fin MAX_TXIDS),
      (∀ p, ((runOps prio init ops).ann t p).state = AnnState.nothing ∨
            ((runOps prio init ops).ann t p).state = AnnState.completed) →
      ∀ p, ((runOps prio init ops).ann t p).state = AnnState.nothing) ∧
    (∀ (prio : Fin MAX_TXIDS → Fin MAX_PEERS → Bool → Nat) (s : TS) (peer : Fin MAX_PEERS)
        (txid : Fin MAX_TXIDS) (pref : Bool) (rt : Int),
      (s.ann txid peer).state = AnnState.nothing →
      (receivedInv prio s peer txid pref rt).ann txid peer =
        { time := rt, sequence := s.seq, state := AnnState.candidate,
          preferred := pref, priority := prio txid peer pref }) := by
  constructor
  · intro prio ops t h
    exact runOps_clean prio ops init init_clean t h
  · intro prio s peer txid pref rt hg
    rw [receivedInv_create prio s peer txid pref rt hg]
    show (if txid = txid then
        if peer = peer then
          ({ time := rt, sequence := s.seq, state := AnnState.candidate,
             preferred := pref, priority := prio txid peer pref } : Ann)
        else s.ann txid peer
        else s.ann txid peer) = _
    rw [if_pos rfl, if_pos rfl]

/-- Witness for c6_purge_invariant: a run in which received_response
resolves the only announcement of item 0 (its row is purged), and a fresh
received_inv on the empty initial state. -/
theorem c6_purge_invariant_witness :
    (∀ p, ((runOps prio0 init [Op.receivedInv 0 0 true 0, Op.receivedResponse 0 0]).ann 0
        p).state = AnnState.nothing ∨
      ((runOps prio0 init [Op.receivedInv 0 0 true 0, Op.receivedResponse 0 0]).ann 0
        p).state = AnnState.completed) ∧
    ((runOps prio0 init [Op.receivedInv 0 0 true 0, Op.receivedResponse 0 0]).ann 0 3).state
        = AnnState.nothing ∧
    (init.ann 0 0).state = AnnState.nothing ∧
    (receivedInv prio0 init 0 0 true 5).ann 0 0 =
      { time := 5, sequence := 0, state := AnnState.candidate, preferred := true,
        priority := prio0 0 0 true } :=
  ⟨by decide,
    c6_purge_invariant.1 prio0 [Op.receivedInv 0 0 true 0, Op.receivedResponse 0 0] 0
      (by decide) 3,
    by decide,
    c6_purge_invariant.2 prio0 init 0 0 true 5 (by decide)⟩

/-- C7: received_inv on an existing (peer, item) pair, in any state, leaves
the tracker state unchanged even when the preferred flag or reqtime differ;
hence two back-to-back received_inv calls for the same pair, whatever the
parameters of the second, leave the same state as the first call alone. -/
theorem c7_received_inv_dedup (prio : Fin MAX_TXIDS → Fin MAX_PEERS → Bool → Nat)
    (s : TS) (peer : Fin MAX_PEERS) (txid : Fin MAX_TXIDS)
    (pref : Bool) (rt : Int) (pref2 : Bool) (rt2 : Int) :
    ((s.ann txid peer).state ≠ AnnState.nothing → receivedInv prio s peer txid pref rt = s) ∧
    receivedInv prio (receivedInv prio s peer txid pref rt) peer txid pref2 rt2 =
      receivedInv prio s peer txid pref rt := by
  refine ⟨receivedInv_noop prio s peer txid pref rt, ?_⟩
  by_cases hg : (s.ann txid peer).state = AnnState.nothing
  · apply receivedInv_noop
    rw [receivedInv_create prio s peer txid pref rt hg]
    show ((if txid = txid then
        if peer = peer then
          ({ time := rt, sequence := s.seq, state := AnnState.candidate,
             preferred := pref, priority := prio txid peer pref } : Ann)
        else s.ann txid peer
        else s.ann txid peer)).state ≠ AnnState.nothing
    rw [if_pos rfl, if_pos rfl]
    simp
  · rw [receivedInv_noop prio s peer txid pref rt hg]
    exact receivedInv_noop prio s peer txid pref2 rt2 hg

/-- Witness for c7_received_inv_dedup at a state that already holds the
announcement. -/
theorem c7_received_inv_dedup_witness :
    ((runOps prio0 init [Op.receivedInv 0 0 true 0]).ann 0 0).state ≠ AnnState.nothing ∧
    receivedInv prio0 (runOps prio0 init [Op.receivedInv 0 0 true 0]) 0 0 false 5 =
      runOps prio0 init [Op.receivedInv 0 0 true 0] :=
  ⟨by decide,
    (c7_received_inv_dedup prio0 (runOps prio0 init [Op.receivedInv 0 0 true 0])
      0 0 false 5 true 9).1 (by decide)⟩

/-- C8, counterexample: a candidate with reqtime equal to the current time
is returned by get_requestable (it was treated as ready), then time moves
backward by one microsecond; the next get_requestable at now2 < reqtime
returns the empty list — the candidate is treated as delayed again, since
the naive structure recomputes readiness as time ≤ now on every query.
This contradicts the claim that a once-promoted candidate stays selectable
when now moves below its reqtime. -/
theorem c8_counterexample :
    ((getRequestable (runOps prio0 init [Op.receivedInv 0 0 true 244466666]) 0).2.1).map
        Prod.snd = [0] ∧
    ((runOps prio0 init [Op.receivedInv 0 0 true 244466666, Op.getRequestable 0,
        Op.advanceTime (-1)]).ann 0 0).state = AnnState.candidate ∧
    (runOps prio0 init [Op.receivedInv 0 0 true 244466666, Op.getRequestable 0,
        Op.advanceTime (-1)]).now <
      ((runOps prio0 init [Op.receivedInv 0 0 true 244466666, Op.getRequestable 0,
        Op.advanceTime (-1)]).ann 0 0).time ∧
    (getRequestable (runOps prio0 init [Op.receivedInv 0 0 true 244466666, Op.getRequestable 0,
        Op.advanceTime (-1)]) 0).2.1 = [] :=
  ⟨by decide, by decide, by decide, by decide⟩

/-- C8, amended: candidate readiness is recomputed from the current now on
every query: whatever promotions earlier queries performed, a candidate
whose reqtime lies beyond the current now is never returned by
get_requestable — moving time backward below the reqtime demotes it (while
all invariants are preserved, see c2 and c6). -/
theorem c8_amended (s : TS) (peer : Fin MAX_PEERS) (txid : Fin MAX_TXIDS)
    (hc : (s.ann txid peer).state = AnnState.candidate)
    (ht : s.now < (s.ann txid peer).time) :
    txid ∉ ((getRequestable s peer).2.1).map Prod.snd := by
  intro hmem
  rw [mem_selected_iff] at hmem
  obtain ⟨-, hsel⟩ := hmem
  rw [getSelected_eq_some_iff] at hsel
  obtain ⟨-, hviab, -⟩ := hsel
  have h1 : (expireRow (s.ann txid) s.now).1 peer = s.ann txid peer :=
    expireRow_ne_requested (s.ann txid) s.now peer (by rw [hc]; simp)
  have h2 : procRow (s.ann txid) s.now = (expireRow (s.ann txid) s.now).1 :=
    cleanupRow_id_of_active _ peer (by rw [h1, hc]; simp) (by rw [h1, hc]; simp)
  rw [h2] at hviab
  obtain ⟨-, htime2⟩ := hviab
  rw [h1] at htime2
  exact absurd htime2 (not_le.mpr ht)

/-- Witness for c8_amended at a concrete delayed candidate. -/
theorem c8_amended_witness :
    ((runOps prio0 init [Op.receivedInv 0 0 true 999999999]).ann 0 0).state
        = AnnState.candidate ∧
    (runOps prio0 init [Op.receivedInv 0 0 true 999999999]).now <
      ((runOps prio0 init [Op.receivedInv 0 0 true 999999999]).ann 0 0).time ∧
    (0 : Fin MAX_TXIDS) ∉
      ((getRequestable (runOps prio0 init [Op.receivedInv 0 0 true 999999999]) 0).2.1).map
        Prod.snd :=
  ⟨by decide, by decide,
    c8_amended (runOps prio0 init [Op.receivedInv 0 0 true 999999999]) 0 0
      (by decide) (by decide)⟩

/-- C9: received_response for a pair with no announcement returns normally
and changes nothing: the state (hence every announcement), all accessor
values and the sequence counter are exactly as before. -/
theorem c9_received_response_unknown_noop (s : TS) (peer : Fin MAX_PEERS)
    (txid : Fin MAX_TXIDS) (h : (s.ann txid peer).state = AnnState.nothing) :
    receivedResponse s peer txid = s ∧
    (∀ p2, (receivedResponse s peer txid).count p2 = s.count p2) ∧
    (∀ p2, (receivedResponse s peer txid).countInFlight p2 = s.countInFlight p2) ∧
    (∀ p2, (receivedResponse s peer txid).countCandidates p2 = s.countCandidates p2) ∧
    (receivedResponse s peer txid).size = s.size ∧
    (receivedResponse s peer txid).seq = s.seq := by
  have he := receivedResponse_noop s peer txid h
  exact ⟨he, fun p2 => by rw [he], fun p2 => by rw [he], fun p2 => by rw [he],
    by rw [he], by rw [he]⟩

/-- Witness for c9_received_response_unknown_noop on the fresh tracker. -/
theorem c9_received_response_unknown_noop_witness :
    (init.ann 0 0).state = AnnState.nothing ∧ receivedResponse init 0 0 = init :=
  ⟨by decide, (c9_received_response_unknown_noop init 0 0 (by decide)).1⟩

/-- C10: in every state, the accessor values asserted by Tester::Check are
mutually consistent: the in-flight and candidate counts of a peer sum to at
most its announcement count, and the total size is the sum of the per-peer
counts. -/
theorem c10_accessor_consistency (s : TS) (peer : Fin MAX_PEERS) :
    s.countInFlight peer + s.countCandidates peer ≤ s.count peer ∧
    s.size = ∑ p : Fin MAX_PEERS, s.count p := by
  constructor
  · unfold TS.countInFlight TS.countCandidates TS.count
    have hdisj : Disjoint
        (Finset.univ.filter fun t : Fin MAX_TXIDS => (s.ann t peer).state = AnnState.requested)
        (Finset.univ.filter fun t : Fin MAX_TXIDS =>
          (s.ann t peer).state = AnnState.candidate) := by
      rw [Finset.disjoint_left]
      intro t h1 h2
      rw [Finset.mem_filter] at h1 h2
      rw [h1.2] at h2
      exact absurd h2.2 (by decide)
    rw [← Finset.card_union_of_disjoint hdisj]
    apply Finset.card_le_card
    intro t htm
    rw [Finset.mem_union] at htm
    rw [Finset.mem_filter]
    refine ⟨Finset.mem_univ t, ?_⟩
    rcases htm with h2 | h2 <;> rw [Finset.mem_filter] at h2 <;> rw [h2.2] <;> decide
  · unfold TS.size TS.count
    rw [Finset.card_filter, ← Finset.univ_product_univ, Finset.sum_product, Finset.sum_comm]
    refine Finset.sum_congr rfl ?_
    intro p _
    rw [Finset.card_filter]

end TxRequest
